import Mathlib

namespace Quad

/-- Modelled from the spec: a `Partition` is one contiguous sub-range of the
overall integration interval, with fields `start` and `end` (the latter written
`stop` since `end` is reserved) and derived `length = end - start`.
(The `Interval` module of the repository is not under `src/`.) -/
structure Partition where
  start : ℚ
  stop : ℚ
deriving DecidableEq, Repr

def Partition.length (p : Partition) : ℚ := p.stop - p.start

/-- Modelled from the spec: a `Point` is an `(x, y)` pair with `y` the function
value at `x`. -/
structure Point where
  x : ℚ
  y : ℚ
deriving DecidableEq, Repr

/-- Modelled from the spec: an `Interval` is an ordered sequence of contiguous
`Partition`s covering `[start, end]`; iteration is over partitions, and
`interval[i]` is indexed access into `partitions`. -/
structure Interval where
  partitions : List Partition
deriving DecidableEq, Repr

/-- Python `interval[0]` (first partition; the spec guarantees at least one). -/
def Interval.first (I : Interval) : Partition := I.partitions.headD ⟨0, 0⟩

def Interval.start (I : Interval) : ℚ := (I.partitions.headD ⟨0, 0⟩).start

def Interval.stop (I : Interval) : ℚ := (I.partitions.getLastD ⟨0, 0⟩).stop

/-- Modelled from the spec: uniform construction `Interval(start, end, n)`
producing `n` partitions of equal length `(end - start)/n`. -/
def Interval.uniform (a b : ℚ) (n : ℕ) : Interval :=
  ⟨(List.range n).map fun i => ⟨a + i * ((b - a) / n), a + (i + 1) * ((b - a) / n)⟩⟩

/-- Modelled from the spec: `AnnotatedFunction` pairs a function `ℝ → ℝ`
(here over `ℚ`) with an optional display string. -/
structure AnnotatedFunction where
  func : ℚ → ℚ
  string : Option String := none

/-- Modelled from the spec: a `Method` is a pure point-selection strategy with
single operation `choose(function, partition) → Point`. -/
structure Method where
  choose : (ℚ → ℚ) → Partition → Point

/-- Modelled from the spec: `Left: x = partition.start`, `y = f(x)`. -/
def Method.left : Method := ⟨fun f p => ⟨p.start, f p.start⟩⟩

/-- Modelled from the spec: `Right: x = partition.end`, `y = f(x)`. -/
def Method.right : Method := ⟨fun f p => ⟨p.stop, f p.stop⟩⟩

/-- Modelled from the spec: `Midpoint: x = (start+end)/2`, `y = f(x)`. -/
def Method.midpoint : Method :=
  ⟨fun f p => ⟨(p.start + p.stop) / 2, f ((p.start + p.stop) / 2)⟩⟩

/-- The abstract base class state: the `(func, interval, method)` triple. -/
structure Quadrature where
  func : AnnotatedFunction
  interval : Interval
  method : Method

/-- `Quadrature.points`: `[self.method.choose(self.func.func, p) for p in self.interval]`. -/
def Quadrature.points (q : Quadrature) : List Point :=
  q.interval.partitions.map (q.method.choose q.func.func)

/-- `Riemann.calc`: `total = 0`, then `total += partition.length * point.y` over
`zip(self.interval, self.points)`. -/
def Riemann.calc (q : Quadrature) : ℚ :=
  (q.interval.partitions.zip (Quadrature.points q)).foldl
    (fun total pp => total + pp.1.length * pp.2.y) 0

/-- `Trapezoid.__init__`: pins the method to `Method.left()`. -/
structure Trapezoid where
  func : AnnotatedFunction
  interval : Interval

def Trapezoid.toQuadrature (t : Trapezoid) : Quadrature :=
  ⟨t.func, t.interval, Method.left⟩

/-- `Trapezoid.points`: the base points plus the extra endpoint
`Point(interval.end, f(interval.end))`. -/
def Trapezoid.points (t : Trapezoid) : List Point :=
  Quadrature.points t.toQuadrature ++ [⟨t.interval.stop, t.func.func t.interval.stop⟩]

/-- `Trapezoid.calc`: `total = 0`, then `total += (a+b)/2*h` over partitions,
with `a = f(partition.start)`, `b = f(partition.end)`, `h = partition.length`. -/
def Trapezoid.calc (t : Trapezoid) : ℚ :=
  t.interval.partitions.foldl
    (fun total p => total + (t.func.func p.start + t.func.func p.stop) / 2 * p.length) 0

/-- The `Simpson` instance state after a successful `__init__`. -/
structure Simpson where
  func : AnnotatedFunction
  interval : Interval

/-- First error message raised by `Simpson.__init__` (spelling as in the source). -/
def simpsonOddMessage : String :=
  "Simson's rule only works with an even number of partitions."

/-- Second error message raised by `Simpson.__init__`. -/
def simpsonUnequalMessage : String :=
  "All partition lengths must be the same."

/-- `Simpson.__init__` as a fallible constructor: raises (returns `.error`)
when `len(interval.partitions) % 2 != 0`, and when
`not all(interval[0].length - i.length < 10**-3 for i in interval)`. -/
def Simpson.make (f : AnnotatedFunction) (I : Interval) : Except String Simpson :=
  if I.partitions.length % 2 ≠ 0 then
    .error simpsonOddMessage
  else if ¬ (∀ p ∈ I.partitions, I.first.length - p.length < 1 / 1000) then
    .error simpsonUnequalMessage
  else
    .ok ⟨f, I⟩

def Simpson.toQuadrature (s : Simpson) : Quadrature :=
  ⟨s.func, s.interval, Method.left⟩

/-- `Simpson.points`: the base points plus the extra endpoint, same as Trapezoid. -/
def Simpson.points (s : Simpson) : List Point :=
  Quadrature.points s.toQuadrature ++ [⟨s.interval.stop, s.func.func s.interval.stop⟩]

/-- Python slice step 2: elements at relative indices 0, 2, 4, … of a list. -/
def everyOther {α : Type} : List α → List α
  | [] => []
  | [a] => [a]
  | a :: _ :: t => a :: everyOther t

/-- The accumulated weighted sum of `Simpson.calc` before the final scaling:
`area = points[0].y + points[-1].y`, then `+ 4*y` over `points[1:-1:2]` and
`+ 2*y` over `points[2:-1:2]`. -/
def Simpson.weightedArea (s : Simpson) : ℚ :=
  let pts := s.points
  let area0 := (pts.headD ⟨0, 0⟩).y + (pts.getLastD ⟨0, 0⟩).y
  let area1 := (everyOther ((pts.drop 1).dropLast)).foldl
    (fun area pt => area + 4 * pt.y) area0
  (everyOther ((pts.drop 2).dropLast)).foldl
    (fun area pt => area + 2 * pt.y) area1

/-- `Simpson.calc`: `return area*self.interval[0].length/3`. -/
def Simpson.calc (s : Simpson) : ℚ :=
  s.weightedArea * s.interval.first.length / 3

/-- `chunk_iter(interval, 2)` followed by the loop body of `Simpson.parabolas`:
consecutive pairs of partitions. On an odd-length list the Python code's
`zip_longest` pads with the integer `0`, and `p1.start` then raises
(`AttributeError`), modelled by `none`. -/
def parabolasAux (f : ℚ → ℚ) (size : ℚ) : List Partition → Option (List (ℚ × ℚ × ℚ))
  | [] => some []
  | [_] => none
  | p0 :: p1 :: t =>
    let y0 := f p0.start
    let y1 := f p1.start
    let y2 := f p1.stop
    (parabolasAux f size t).map
      (fun rest => ((y0 - 2 * y1 + y2) / (2 * size ^ 2), (y2 - y0) / (2 * size), y1) :: rest)

/-- `Simpson.parabolas`: `size = self.interval[0].length`, then the closed-form
coefficients for every consecutive pair of partitions. -/
def Simpson.parabolas (s : Simpson) : Option (List (ℚ × ℚ × ℚ)) :=
  parabolasAux s.func.func s.interval.first.length s.interval.partitions

/-! ## Specification-side formulas (written from the spec's words, to be
compared against the code-derived definitions above) -/

/-- Spec formula for Riemann: `Σ partition.length * point.y` over all
partitions, the point being the one the configured Method chose. -/
def riemannSpec (q : Quadrature) : ℚ :=
  (q.interval.partitions.map
    (fun p => p.length * (q.method.choose q.func.func p).y)).sum

/-- Spec formula for Trapezoid:
`Σ (f(partition.start) + f(partition.end))/2 * partition.length`. -/
def trapezoidSpec (f : ℚ → ℚ) (ps : List Partition) : ℚ :=
  (ps.map (fun p => (f p.start + f p.stop) / 2 * p.length)).sum

/-- Spec formula: the sum of the odd-indexed y-values, indices running over
the whole point list. -/
def oddIndexSum (ys : List ℚ) : ℚ :=
  ∑ i in Finset.range ys.length, if i % 2 = 1 then ys.getD i 0 else 0

/-- Spec formula: the sum of the even-indexed interior y-values (index
neither `0` nor `n`, for `n + 1` values). -/
def evenInteriorSum (ys : List ℚ) : ℚ :=
  ∑ i in Finset.range ys.length,
    if i % 2 = 0 ∧ i ≠ 0 ∧ i ≠ ys.length - 1 then ys.getD i 0 else 0

/-- Spec formula for Simpson:
`h/3 * [y₀ + y_n + 4·Σ(odd-indexed y) + 2·Σ(even-indexed interior y)]`. -/
def simpsonSpec (h : ℚ) (ys : List ℚ) : ℚ :=
  h / 3 * (ys.getD 0 0 + ys.getD (ys.length - 1) 0
    + 4 * oddIndexSum ys + 2 * evenInteriorSum ys)

/-- Consecutive pairs of partitions, as the spec describes `parabolas()`
(for an even partition count this is total). -/
def pairChunks : List Partition → List (Partition × Partition)
  | p0 :: p1 :: t => (p0, p1) :: pairChunks t
  | _ => []

/-- Spec formula for `parabolas()`: for each consecutive pair of partitions,
the closed-form coefficients `A = (y0 - 2y1 + y2)/(2h²)`, `B = (y2 - y0)/(2h)`,
`C = y1` through the three sampled values of that pair. -/
def parabolasSpec (f : ℚ → ℚ) (h : ℚ) (ps : List Partition) : List (ℚ × ℚ × ℚ) :=
  (pairChunks ps).map (fun q =>
    ((f q.1.start - 2 * f q.2.start + f q.2.stop) / (2 * h ^ 2),
      (f q.2.stop - f q.1.start) / (2 * h),
      f q.2.start))

/-! ## Concrete instances used by the spec's numeric examples -/

/-- The function `f(x) = x`. -/
def xFunc : AnnotatedFunction := ⟨fun x => x, some "x"⟩

/-- The function `f(x) = x^2`. -/
def squareFunc : AnnotatedFunction := ⟨fun x => x * x, some "x^2"⟩

/-- `[0, 2]` with `n = 2` uniform partitions. -/
def interval02n2 : Interval := Interval.uniform 0 2 2

/-- `[0, 2]` with `n = 3` uniform partitions. -/
def interval02n3 : Interval := Interval.uniform 0 2 3

/-- An even-count interval whose second partition is longer than the first by
`1` (far beyond the `1e-3` tolerance). -/
def intervalLonger : Interval := ⟨[⟨0, 1⟩, ⟨1, 3⟩]⟩

/-- An even-count interval whose second partition is shorter than the first by
`1/2` (beyond the `1e-3` tolerance). -/
def intervalShorter : Interval := ⟨[⟨0, 1⟩, ⟨1, 3 / 2⟩]⟩

/-! ## Helper lemmas -/

theorem foldl_add_map_sum {α : Type} (g : α → ℚ) :
    ∀ (l : List α) (a : ℚ), l.foldl (fun acc x => acc + g x) a = a + (l.map g).sum
  | [], a => by simp
  | x :: t, a => by
    simp only [List.foldl_cons, List.map_cons, List.sum_cons]
    rw [foldl_add_map_sum g t]
    ring

theorem everyOther_cons {α : Type} (a : α) (t : List α) :
    everyOther (a :: t) = a :: everyOther (t.drop 1) := by
  cases t <;> rfl

theorem everyOther_sum_spec :
    ∀ l : List ℚ,
      ((everyOther l).sum
          = ∑ i in Finset.range l.length, if i % 2 = 0 then l.getD i 0 else 0)
      ∧ ((everyOther (l.drop 1)).sum
          = ∑ i in Finset.range l.length, if i % 2 = 1 then l.getD i 0 else 0)
  | [] => by constructor <;> simp [everyOther]
  | a :: t => by
    obtain ⟨ih1, ih2⟩ := everyOther_sum_spec t
    constructor
    · rw [everyOther_cons, List.sum_cons, ih2, List.length_cons, Finset.sum_range_succ']
      simp only [List.getD_cons_succ, List.getD_cons_zero, Nat.succ_mod_two_eq_zero_iff]
      norm_num
      ring
    · show (everyOther t).sum = _
      rw [ih1, List.length_cons, Finset.sum_range_succ']
      simp only [List.getD_cons_succ, List.getD_cons_zero, Nat.succ_mod_two_eq_one_iff]
      norm_num

theorem length_mid (l : List ℚ) : ((l.drop 1).dropLast).length = l.length - 2 := by
  simp [Nat.sub_sub]

theorem mid_getD (l : List ℚ) (j : ℕ) (hj : j + 2 < l.length) :
    ((l.drop 1).dropLast).getD j 0 = l.getD (j + 1) 0 := by
  rcases Nat.lt_or_ge j ((l.drop 1).dropLast).length with h1 | h1
  · have h2 : j + 1 < l.length := by rw [length_mid] at h1; omega
    rw [List.getD_eq_getElem _ _ h1, List.getD_eq_getElem _ _ h2]
    rw [List.getElem_dropLast, List.getElem_drop]
    simp [Nat.add_comm]
  · rw [length_mid] at h1
    omega

theorem drop2_dropLast {α : Type} :
    ∀ l : List α, (l.drop 2).dropLast = ((l.drop 1).dropLast).drop 1
  | [] => rfl
  | [_] => rfl
  | [_, _] => rfl
  | _ :: _ :: _ :: _ => rfl

theorem getLastD_y : ∀ (d : Point) (pts : List Point),
    (pts.getLastD d).y = (pts.map Point.y).getLastD d.y
  | _, [] => rfl
  | d, p :: t => by
    rw [List.getLastD_cons, List.map_cons, List.getLastD_cons]
    exact getLastD_y p t

theorem headD_y (d : Point) (pts : List Point) :
    (pts.headD d).y = (pts.map Point.y).headD d.y := by
  cases pts <;> rfl

theorem getLastD_eq_getD (d : ℚ) (l : List ℚ) (hl : l ≠ []) :
    l.getLastD d = l.getD (l.length - 1) d := by
  cases l with
  | nil => exact absurd rfl hl
  | cons a t =>
    have h : (a :: t).length - 1 < (a :: t).length := by simp
    rw [List.getD_eq_getElem _ _ h]
    rw [show (a :: t).getLastD d = (a :: t).getLast (by simp) from rfl]
    exact List.getLast_eq_getElem _ _

theorem headD_eq_getD (d : ℚ) (l : List ℚ) :
    l.headD d = l.getD 0 d := by
  cases l <;> rfl

theorem Simpson.make_ok_iff (f : AnnotatedFunction) (I : Interval) (s : Simpson) :
    Simpson.make f I = .ok s ↔
      s = ⟨f, I⟩ ∧ I.partitions.length % 2 = 0
        ∧ ∀ p ∈ I.partitions, I.first.length - p.length < 1 / 1000 := by
  constructor
  · intro hmk
    unfold Simpson.make at hmk
    by_cases h1 : I.partitions.length % 2 ≠ 0
    · rw [if_pos h1] at hmk
      exact absurd hmk (by simp)
    · rw [if_neg h1] at hmk
      by_cases h2 : ¬ ∀ p ∈ I.partitions, I.first.length - p.length < 1 / 1000
      · rw [if_pos h2] at hmk
        exact absurd hmk (by simp)
      · rw [if_neg h2] at hmk
        exact ⟨(Except.ok.inj hmk).symm, not_not.mp h1, not_not.mp h2⟩
  · rintro ⟨rfl, h1, h2⟩
    unfold Simpson.make
    rw [if_neg (not_not_intro h1), if_neg (not_not_intro h2)]

theorem quadrature_points_len (q : Quadrature) :
    (Quadrature.points q).length = q.interval.partitions.length := by
  simp [Quadrature.points]

theorem trapezoid_points_len (t : Trapezoid) :
    t.points.length = t.interval.partitions.length + 1 := by
  simp [Trapezoid.points, Quadrature.points, Trapezoid.toQuadrature]

theorem simpson_points_len (s : Simpson) :
    s.points.length = s.interval.partitions.length + 1 := by
  simp [Simpson.points, Quadrature.points, Simpson.toQuadrature]

theorem Simpson.points_ne_nil (s : Simpson) : s.points ≠ [] := by
  simp [Simpson.points]

theorem Interval.first_length_eq (I : Interval) (h : ℚ)
    (hne : I.partitions ≠ []) (heq : ∀ p ∈ I.partitions, p.length = h) :
    I.first.length = h := by
  cases hI : I.partitions with
  | nil => exact absurd hI hne
  | cons p t =>
    have hp := heq p (by rw [hI]; exact List.mem_cons_self p t)
    simp [Interval.first, hI, hp]

theorem everyOther_map {α β : Type} (g : α → β) :
    ∀ l : List α, (everyOther l).map g = everyOther (l.map g)
  | [] => rfl
  | [_] => rfl
  | a :: b :: t => by simp [everyOther, everyOther_map g t]

theorem sum_map_const_mul (c : ℚ) :
    ∀ l : List Point, (l.map (fun pt => c * pt.y)).sum = c * (l.map Point.y).sum
  | [] => by simp
  | p :: t => by
    simp [sum_map_const_mul c t]
    ring

theorem pairChunks_length : ∀ ps : List Partition, (pairChunks ps).length = ps.length / 2
  | [] => rfl
  | [_] => by simp [pairChunks]
  | _ :: _ :: t => by
    have ih := pairChunks_length t
    simp only [pairChunks, List.length_cons, ih]
    omega

theorem parabolasAux_even (f : ℚ → ℚ) (sz : ℚ) :
    ∀ ps : List Partition, ps.length % 2 = 0 →
      parabolasAux f sz ps = some (parabolasSpec f sz ps)
  | [], _ => rfl
  | [_], hlen => by simp at hlen
  | p0 :: p1 :: t, hlen => by
    have ht : t.length % 2 = 0 := by simp [Nat.add_mod] at hlen; omega
    have ih := parabolasAux_even f sz t ht
    simp [parabolasAux, parabolasSpec, pairChunks, ih]

theorem weighted_eq_spec (ys : List ℚ) (n : ℕ) (hlen : ys.length = n + 1)
    (heven : n % 2 = 0) (hn2 : 2 ≤ n) :
    ys.getD 0 0 + ys.getD (ys.length - 1) 0
      + 4 * (everyOther ((ys.drop 1).dropLast)).sum
      + 2 * (everyOther ((ys.drop 2).dropLast)).sum
    = ys.getD 0 0 + ys.getD (ys.length - 1) 0
      + 4 * oddIndexSum ys + 2 * evenInteriorSum ys := by
  have hmidlen : ((ys.drop 1).dropLast).length = n - 1 := by
    rw [length_mid, hlen]
    omega
  obtain ⟨hL1, hL2⟩ := everyOther_sum_spec ((ys.drop 1).dropLast)
  rw [drop2_dropLast ys, hL1, hL2, hmidlen]
  have hmid : ∀ j ∈ Finset.range (n - 1),
      ((ys.drop 1).dropLast).getD j 0 = ys.getD (j + 1) 0 := by
    intro j hj
    rw [Finset.mem_range] at hj
    exact mid_getD ys j (by omega)
  have hS1 : ∑ j in Finset.range (n - 1),
        (if j % 2 = 0 then ((ys.drop 1).dropLast).getD j 0 else 0)
      = ∑ j in Finset.range (n - 1), (if j % 2 = 0 then ys.getD (j + 1) 0 else 0) :=
    Finset.sum_congr rfl (fun j hj => by rw [hmid j hj])
  have hS2 : ∑ j in Finset.range (n - 1),
        (if j % 2 = 1 then ((ys.drop 1).dropLast).getD j 0 else 0)
      = ∑ j in Finset.range (n - 1), (if j % 2 = 1 then ys.getD (j + 1) 0 else 0) :=
    Finset.sum_congr rfl (fun j hj => by rw [hmid j hj])
  rw [hS1, hS2]
  have hT1 : ∑ i in Finset.range (n + 1), (if i % 2 = 1 then ys.getD i 0 else 0)
      = ∑ j in Finset.range (n - 1), (if j % 2 = 0 then ys.getD (j + 1) 0 else 0) := by
    rw [Finset.sum_range_succ']
    simp only [Nat.succ_mod_two_eq_one_iff]
    norm_num
    nth_rewrite 1 [show n = n - 1 + 1 from by omega]
    rw [Finset.sum_range_succ]
    have hodd : ¬ (n - 1) % 2 = 0 := by omega
    simp [hodd]
  have hT2 : ∑ i in Finset.range (n + 1),
        (if i % 2 = 0 ∧ i ≠ 0 ∧ i ≠ n then ys.getD i 0 else 0)
      = ∑ j in Finset.range (n - 1), (if j % 2 = 1 then ys.getD (j + 1) 0 else 0) := by
    rw [Finset.sum_range_succ']
    simp only [Nat.succ_mod_two_eq_zero_iff, Nat.succ_ne_zero, ne_eq, not_false_eq_true, true_and]
    norm_num
    nth_rewrite 1 [show n = n - 1 + 1 from by omega]
    rw [Finset.sum_range_succ]
    have htop : ¬ ((n - 1) % 2 = 1 ∧ ¬ n - 1 + 1 = n) := by omega
    rw [if_neg htop]
    rw [add_zero]
    refine Finset.sum_congr rfl (fun j hj => ?_)
    rw [Finset.mem_range] at hj
    have hne : ¬ j + 1 = n := by omega
    simp [hne]
  rw [oddIndexSum, evenInteriorSum]
  simp only [hlen, Nat.add_sub_cancel]
  rw [hT1, hT2]

theorem Simpson.weightedArea_eq (s : Simpson) :
    Simpson.weightedArea s
      = (s.points.map Point.y).getD 0 0
        + (s.points.map Point.y).getD ((s.points.map Point.y).length - 1) 0
        + 4 * (everyOther (((s.points.map Point.y).drop 1).dropLast)).sum
        + 2 * (everyOther (((s.points.map Point.y).drop 2).dropLast)).sum := by
  have hysne : s.points.map Point.y ≠ [] := by
    simpa using s.points_ne_nil
  simp only [Simpson.weightedArea]
  rw [foldl_add_map_sum (fun pt : Point => 4 * pt.y),
      foldl_add_map_sum (fun pt : Point => 2 * pt.y)]
  rw [sum_map_const_mul, sum_map_const_mul]
  rw [everyOther_map, everyOther_map]
  rw [List.map_dropLast, List.map_drop, List.map_dropLast, List.map_drop]
  rw [headD_y ⟨0, 0⟩ s.points, getLastD_y ⟨0, 0⟩ s.points]
  rw [headD_eq_getD, getLastD_eq_getD _ _ hysne]


theorem zip_self_map (g : Partition → Point) :
    ∀ l : List Partition,
      (l.zip (l.map g)).map (fun pp => pp.1.length * pp.2.y)
        = l.map (fun p => p.length * (g p).y)
  | [] => rfl
  | p :: t => by simp [zip_self_map g t]

/-- **C2**: `Riemann.calc()` returns `Σ partition.length * point.y` over all
partitions, with the point chosen by the configured Method; with the Left
method on `f(x)=x` over `[0,2]`, `n=2`, it returns `1`, and with the Right
method it returns `3`. -/
theorem riemann_calc_spec :
    (∀ q : Quadrature, Riemann.calc q = riemannSpec q)
      ∧ Riemann.calc ⟨xFunc, interval02n2, Method.left⟩ = 1
      ∧ Riemann.calc ⟨xFunc, interval02n2, Method.right⟩ = 3 := by
  refine ⟨fun q => ?_, ?_, ?_⟩
  · simp only [Riemann.calc, riemannSpec, Quadrature.points]
    rw [foldl_add_map_sum (fun pp : Partition × Point => pp.1.length * pp.2.y), zero_add,
      zip_self_map]
  · norm_num [Riemann.calc, Quadrature.points, Method.left, interval02n2, Interval.uniform,
      List.range_succ, xFunc, Partition.length]
  · norm_num [Riemann.calc, Quadrature.points, Method.right, interval02n2, Interval.uniform,
      List.range_succ, xFunc, Partition.length]

/-- **C3**: `Trapezoid.calc()` returns
`Σ (f(partition.start) + f(partition.end))/2 * partition.length` with no
uniformity requirement on the partition lengths; on `f(x)=x` over `[0,2]`,
`n=2`, it returns exactly `2`. -/
theorem trapezoid_calc_spec :
    (∀ t : Trapezoid, Trapezoid.calc t = trapezoidSpec t.func.func t.interval.partitions)
      ∧ Trapezoid.calc ⟨xFunc, interval02n2⟩ = 2 := by
  refine ⟨fun t => ?_, ?_⟩
  · simp only [Trapezoid.calc, trapezoidSpec]
    rw [foldl_add_map_sum
      (fun p : Partition => (t.func.func p.start + t.func.func p.stop) / 2 * p.length),
      zero_add]
  · norm_num [Trapezoid.calc, interval02n2, Interval.uniform, List.range_succ, xFunc,
      Partition.length]

/-- **C4**: constructing a Simpson instance on an interval with an odd number
of partitions fails with the error naming the even-partition-count
precondition, for every function and interval. -/
theorem simpson_odd_rejected (f : AnnotatedFunction) (I : Interval)
    (hodd : I.partitions.length % 2 = 1) :
    Simpson.make f I = .error simpsonOddMessage := by
  unfold Simpson.make
  rw [if_pos (by omega)]

/-- Witness for `simpson_odd_rejected`: `[0,2]` with `n = 3`. -/
theorem simpson_odd_rejected_witness :
    interval02n3.partitions.length % 2 = 1
      ∧ Simpson.make xFunc interval02n3 = .error simpsonOddMessage :=
  ⟨by rfl, simpson_odd_rejected xFunc interval02n3 (by rfl)⟩

/-- **C5 counterexample**: an even-count interval whose second partition is
longer than the first by `1` (far more than `1e-3`) is accepted by
`Simpson.__init__`, so "differs in either direction" is false. -/
theorem simpson_tolerance_not_two_sided :
    intervalLonger.partitions.length % 2 = 0
      ∧ (intervalLonger.partitions.getD 1 ⟨0, 0⟩).length
          - (intervalLonger.partitions.getD 0 ⟨0, 0⟩).length = 1
      ∧ (1 : ℚ) / 1000 < 1
      ∧ Simpson.make xFunc intervalLonger = .ok ⟨xFunc, intervalLonger⟩ := by
  refine ⟨by norm_num [intervalLonger], by norm_num [intervalLonger, Partition.length],
    by norm_num, ?_⟩
  norm_num [Simpson.make, intervalLonger, Interval.first, Partition.length]

/-- **C5 amended**: with an even partition count, construction fails with the
unequal-length error when some partition is *shorter* than the first by at
least `1e-3` (the implemented check is one-sided). -/
theorem simpson_shorter_rejected (f : AnnotatedFunction) (I : Interval)
    (heven : I.partitions.length % 2 = 0)
    (hbad : ∃ p ∈ I.partitions, 1 / 1000 ≤ I.first.length - p.length) :
    Simpson.make f I = .error simpsonUnequalMessage := by
  have h2 : ¬ ∀ p ∈ I.partitions, I.first.length - p.length < 1 / 1000 := by
    obtain ⟨p, hp, hge⟩ := hbad
    intro hall
    exact absurd (hall p hp) (by linarith)
  unfold Simpson.make
  rw [if_neg (by omega), if_pos h2]

/-- Witness for `simpson_shorter_rejected`: partitions `[0,1]` and `[1,3/2]`. -/
theorem simpson_shorter_rejected_witness :
    intervalShorter.partitions.length % 2 = 0
      ∧ Simpson.make xFunc intervalShorter = .error simpsonUnequalMessage :=
  ⟨by norm_num [intervalShorter],
    simpson_shorter_rejected xFunc intervalShorter (by norm_num [intervalShorter])
      ⟨⟨1, 3 / 2⟩, by norm_num [intervalShorter],
        by norm_num [intervalShorter, Interval.first, Partition.length]⟩⟩

/-- **C6**: the equal-length validation is one-sided — every even-count
interval all of whose partition lengths exceed the first partition's length
minus `1e-3` is accepted, and `calc` scales by the *first* partition's
length divided by `3`. -/
theorem simpson_one_sided_accept (f : AnnotatedFunction) (I : Interval)
    (heven : I.partitions.length % 2 = 0)
    (hok : ∀ p ∈ I.partitions, I.first.length - p.length < 1 / 1000) :
    Simpson.make f I = .ok ⟨f, I⟩
      ∧ Simpson.calc ⟨f, I⟩ = Simpson.weightedArea ⟨f, I⟩ * I.first.length / 3 := by
  refine ⟨?_, rfl⟩
  unfold Simpson.make
  rw [if_neg (not_not_intro heven), if_neg (not_not_intro hok)]

/-- Witness for `simpson_one_sided_accept`: the interval whose second
partition is longer than the first by `1` is accepted. -/
theorem simpson_one_sided_accept_witness :
    Simpson.make xFunc intervalLonger = .ok ⟨xFunc, intervalLonger⟩
      ∧ Simpson.calc ⟨xFunc, intervalLonger⟩
          = Simpson.weightedArea ⟨xFunc, intervalLonger⟩ * intervalLonger.first.length / 3 :=
  simpson_one_sided_accept xFunc intervalLonger (by norm_num [intervalLonger])
    (by norm_num [intervalLonger, Interval.first, Partition.length])

/-- **C7**: `points` has length `n` for Riemann (the base property) and
`n + 1` for Trapezoid and Simpson, for `n` partitions. -/
theorem points_length_spec :
    (∀ q : Quadrature, (Quadrature.points q).length = q.interval.partitions.length)
      ∧ (∀ t : Trapezoid, t.points.length = t.interval.partitions.length + 1)
      ∧ (∀ s : Simpson, s.points.length = s.interval.partitions.length + 1) :=
  ⟨quadrature_points_len, trapezoid_points_len, simpson_points_len⟩

/-- **C9**: every constructible Simpson instance has a point count of the
form `2k+1` (the partition count is forced even by `__init__`), so the
failure condition of `parabolas()` for a non-`2k+1` point count can never
arise; on every such instance `parabolas()` succeeds. -/
theorem simpson_point_count_odd (f : AnnotatedFunction) (I : Interval) (s : Simpson)
    (hmk : Simpson.make f I = .ok s) :
    s.points.length % 2 = 1 ∧ ∃ l, Simpson.parabolas s = some l := by
  obtain ⟨rfl, heven, -⟩ := (Simpson.make_ok_iff f I s).mp hmk
  have hplen : (Simpson.points ⟨f, I⟩).length = I.partitions.length + 1 :=
    simpson_points_len _
  constructor
  · rw [hplen]
    omega
  · exact ⟨_, parabolasAux_even _ _ _ heven⟩

/-- Witness for `simpson_point_count_odd` at `f(x)=x` on `[0,2]`, `n=2`. -/
theorem simpson_point_count_odd_witness :
    (Simpson.points ⟨xFunc, interval02n2⟩).length % 2 = 1
      ∧ ∃ l, Simpson.parabolas ⟨xFunc, interval02n2⟩ = some l :=
  simpson_point_count_odd xFunc interval02n2 ⟨xFunc, interval02n2⟩
    (by norm_num [Simpson.make, interval02n2, Interval.uniform, List.range_succ,
      Interval.first, Partition.length])

/-- **C8**: on `n` equal-length partitions of common length `h`, `parabolas()`
returns exactly `n/2` coefficient triples, one per consecutive pair of
partitions, given by the closed-form interpolation
`A = (y0 - 2y1 + y2)/(2h²)`, `B = (y2 - y0)/(2h)`, `C = y1`. -/
theorem simpson_parabolas_spec (f : AnnotatedFunction) (I : Interval) (s : Simpson) (h : ℚ)
    (hmk : Simpson.make f I = .ok s) (hne : I.partitions ≠ [])
    (hlen : ∀ p ∈ I.partitions, p.length = h) :
    Simpson.parabolas s = some (parabolasSpec f.func h I.partitions)
      ∧ (parabolasSpec f.func h I.partitions).length = I.partitions.length / 2 := by
  obtain ⟨rfl, heven, -⟩ := (Simpson.make_ok_iff f I s).mp hmk
  have hfirst : (Interval.first I).length = h := Interval.first_length_eq I h hne hlen
  constructor
  · show parabolasAux f.func (Interval.first I).length I.partitions = _
    rw [hfirst]
    exact parabolasAux_even _ _ _ heven
  · rw [parabolasSpec, List.length_map, pairChunks_length]

/-- Witness for `simpson_parabolas_spec` at `f(x)=x²` on `[0,2]`, `n=2`,
`h=1`. -/
theorem simpson_parabolas_spec_witness :
    Simpson.parabolas ⟨squareFunc, interval02n2⟩
        = some (parabolasSpec squareFunc.func 1 interval02n2.partitions)
      ∧ (parabolasSpec squareFunc.func 1 interval02n2.partitions).length
          = interval02n2.partitions.length / 2 :=
  simpson_parabolas_spec squareFunc interval02n2 ⟨squareFunc, interval02n2⟩ 1
    (by norm_num [Simpson.make, interval02n2, Interval.uniform, List.range_succ,
      Interval.first, Partition.length])
    (List.ne_nil_of_length_pos (by rw [show interval02n2.partitions.length = 2 from rfl]; omega))
    (by norm_num [interval02n2, Interval.uniform, List.range_succ, Partition.length])

/-- **C1**: on `n` equal-length partitions of common length `h` (with `n`
even, forced by construction), `Simpson.calc()` — which accumulates the
weighted sum first and multiplies by the partition length over `3` once at
the end — equals
`h/3 * [y₀ + y_n + 4·Σ(odd-indexed y) + 2·Σ(even-indexed interior y)]`;
in particular on `f(x)=x²` over `[0,2]` with `n=2` it returns `8/3`. -/
theorem simpson_calc_spec :
    (∀ (f : AnnotatedFunction) (I : Interval) (s : Simpson) (h : ℚ),
        Simpson.make f I = .ok s → I.partitions ≠ [] →
        (∀ p ∈ I.partitions, p.length = h) →
        Simpson.calc s = simpsonSpec h (s.points.map Point.y))
      ∧ (Simpson.make squareFunc interval02n2).map Simpson.calc = .ok (8 / 3) := by
  constructor
  · intro f I s h hmk hne hlen
    obtain ⟨rfl, heven, -⟩ := (Simpson.make_ok_iff f I s).mp hmk
    have hfirst : (Interval.first I).length = h := Interval.first_length_eq I h hne hlen
    have hn1 : 1 ≤ I.partitions.length := by
      cases hI : I.partitions with
      | nil => exact absurd hI hne
      | cons p t => simp [hI]
    have hn2 : 2 ≤ I.partitions.length := by omega
    have hyslen : ((Simpson.points ⟨f, I⟩).map Point.y).length
        = I.partitions.length + 1 := by
      rw [List.length_map, simpson_points_len]
    show Simpson.weightedArea ⟨f, I⟩ * (Interval.first I).length / 3 = _
    rw [hfirst, Simpson.weightedArea_eq,
      weighted_eq_spec _ I.partitions.length hyslen heven hn2, simpsonSpec]
    ring
  · norm_num [Simpson.make, interval02n2, Interval.uniform, List.range_succ,
      Interval.first, Partition.length, Simpson.calc, Simpson.weightedArea,
      Simpson.points, Quadrature.points, Simpson.toQuadrature, Method.left,
      squareFunc, Interval.stop, everyOther, Except.map]

/-- Witness for `simpson_calc_spec` at `f(x)=x²` on `[0,2]`, `n=2`, `h=1`. -/
theorem simpson_calc_spec_witness :
    Simpson.calc ⟨squareFunc, interval02n2⟩
      = simpsonSpec 1 ((Simpson.points ⟨squareFunc, interval02n2⟩).map Point.y) :=
  simpson_calc_spec.1 squareFunc interval02n2 ⟨squareFunc, interval02n2⟩ 1
    (by norm_num [Simpson.make, interval02n2, Interval.uniform, List.range_succ,
      Interval.first, Partition.length])
    (List.ne_nil_of_length_pos (by rw [show interval02n2.partitions.length = 2 from rfl]; omega))
    (by norm_num [interval02n2, Interval.uniform, List.range_succ, Partition.length])

/-- **C10**: `points` and `calc` are pure functions of the immutable
`(function, interval, method)` triple — two instances agreeing on the triple
(with a deterministic method) yield identical points and identical `calc`
results, so repeated reads of the same instance coincide. -/
theorem points_calc_deterministic :
    ∀ q q' : Quadrature,
      (q.method = Method.left ∨ q.method = Method.right ∨ q.method = Method.midpoint) →
      q.func = q'.func → q.interval = q'.interval → q.method = q'.method →
      Quadrature.points q = Quadrature.points q' ∧ Riemann.calc q = Riemann.calc q' := by
  intro q q' hdet hf hI hm
  obtain ⟨f, I, m⟩ := q
  obtain ⟨f', I', m'⟩ := q'
  dsimp only at hf hI hm
  subst hf
  subst hI
  subst hm
  exact ⟨rfl, rfl⟩

/-- Witness for `points_calc_deterministic` at the Left method on `[0,2]`,
`n=2`. -/
theorem points_calc_deterministic_witness :
    Quadrature.points ⟨xFunc, interval02n2, Method.left⟩
        = Quadrature.points ⟨xFunc, interval02n2, Method.left⟩
      ∧ Riemann.calc ⟨xFunc, interval02n2, Method.left⟩
        = Riemann.calc ⟨xFunc, interval02n2, Method.left⟩ :=
  points_calc_deterministic _ _ (Or.inl rfl) rfl rfl rfl

end Quad
